import Mathlib

/-!
Verification of the task-manager application logic in
`src/mini_projects/Task_Manager/task-manager/src/App.js`.

The component keeps four pieces of React state:
  `task` (the draft input string), `tasks` (the task list),
  `isEditing` (the input mode flag) and `currentTaskId`
  (the id targeted by the active edit session, `null` when none).
We embed that state as a structure and each handler as a pure
state-transformer.  `Date.now()` is passed in explicitly as a `Nat`
argument wherever the source calls it.  `localStorage` is embedded as a
total map from string keys to optional JSON values, and
`JSON.stringify` / `JSON.parse` are modelled at the level of JSON
values: the stored string is represented by the JSON value it parses
back to, which is faithful because `JSON.parse (JSON.stringify v)`
is structurally identical to `v` for the values this program stores
(finite numbers, strings, arrays and plain objects).
-/

namespace TaskManager

/-- A task record as built by `addTask`:
`{ id: Date.now(), value: task }` in the source. -/
structure Task where
  id : Nat
  value : String
deriving DecidableEq, Repr

/-- The React state of the `App` component:
`task` (draft input), `tasks`, `isEditing`, `currentTaskId`. -/
structure AppState where
  task : String
  tasks : List Task
  isEditing : Bool
  currentTaskId : Option Nat
deriving DecidableEq, Repr

/-- The initial state of the component:
`useState('')`, `useState([])`, `useState(false)`, `useState(null)`. -/
def initialState : AppState :=
  { task := "", tasks := [], isEditing := false, currentTaskId := none }

/-- `setTask(s)` — the controlled input writes the draft string. -/
def setTask (s : String) (st : AppState) : AppState :=
  { st with task := s }

/-- `addTask`: `if (task.length > 0) { setTasks([...tasks, { id: Date.now(), value: task }]); setTask(''); }`.
The `Date.now()` result is the explicit argument `now`. -/
def addTask (now : Nat) (st : AppState) : AppState :=
  if st.task.length > 0 then
    { st with tasks := st.tasks ++ [⟨now, st.task⟩], task := "" }
  else
    st

/-- `startEditTask(task)`: `setTask(task.value); setIsEditing(true); setCurrentTaskId(task.id);`. -/
def startEditTask (t : Task) (st : AppState) : AppState :=
  { st with task := t.value, isEditing := true, currentTaskId := some t.id }

/-- `updateTask`: `setTasks(tasks.map(t => (t.id === currentTaskId ? { id: t.id, value: task } : t))); setTask(''); setIsEditing(false); setCurrentTaskId(null);`.
In JS, `t.id === null` is false for every number, which the
`Option`-valued comparison `some t.id = st.currentTaskId` reproduces. -/
def updateTask (st : AppState) : AppState :=
  { st with
      tasks := st.tasks.map (fun t =>
        if some t.id = st.currentTaskId then ⟨t.id, st.task⟩ else t),
      task := "",
      isEditing := false,
      currentTaskId := none }

/-- `removeTask(taskId)`: `setTasks(tasks.filter(task => task.id !== taskId))`. -/
def removeTask (taskId : Nat) (st : AppState) : AppState :=
  { st with tasks := st.tasks.filter (fun t => t.id ≠ taskId) }

/-- One user-level call of `addTask` with a given draft text: the user
types `s` into the controlled input (so the `task` state holds `s`) and
presses Add at clock time `now`. -/
def addCall (st : AppState) (c : String × Nat) : AppState :=
  addTask c.2 (setTask c.1 st)

/-- A sequence of `addTask` calls, each with its typed text and its
`Date.now()` value. -/
def runAdds (st : AppState) (calls : List (String × Nat)) : AppState :=
  calls.foldl addCall st

/-- JSON values, the image of `JSON.parse`.  Objects are ordered field
lists, matching the insertion order `JSON.stringify` serialises. -/
inductive Json where
  | null : Json
  | bool (b : Bool) : Json
  | num (n : Int) : Json
  | str (s : String) : Json
  | arr (elems : List Json) : Json
  | obj (fields : List (String × Json)) : Json

/-- The JSON value `JSON.stringify` produces for one task object
`{ id: ..., value: ... }`: an object with exactly the two own
enumerable properties `id` (a number) and `value` (a string), in
that insertion order. -/
def encodeTask (t : Task) : Json :=
  .obj [("id", .num t.id), ("value", .str t.value)]

/-- The JSON value `JSON.stringify(tasks)` produces: the array of the
encoded tasks in list order. -/
def encodeTasks (l : List Task) : Json :=
  .arr (l.map encodeTask)

/-- Reading one parsed task object back into a `Task`.  The source has
no explicit decoder — `JSON.parse` hands the untyped structure straight
to `setTasks` — so this is the structural inverse of `encodeTask`,
defined only on the shapes `saveTasks` actually writes. -/
def decodeTask : Json → Option Task
  | .obj [("id", .num n), ("value", .str s)] =>
      if 0 ≤ n then some ⟨n.toNat, s⟩ else none
  | _ => none

/-- Reading a parsed tasks array back into a task list. -/
def decodeTasks : Json → Option (List Task)
  | .arr elems => elems.mapM decodeTask
  | _ => none

/-- `localStorage`, keyed by string.  The stored string under a key is
represented by the JSON value it parses to (`JSON.parse ∘ JSON.stringify`
is the identity on the values this program stores). -/
def Storage := String → Option Json

/-- `localStorage.setItem(key, value)`. -/
def setItem (store : Storage) (key : String) (v : Json) : Storage :=
  fun k => if k = key then some v else store k

/-- `localStorage.getItem(key)`. -/
def getItem (store : Storage) (key : String) : Option Json :=
  store key

/-- `saveTasks`: `localStorage.setItem('tasks', JSON.stringify(tasks))`. -/
def saveTasks (st : AppState) (store : Storage) : Storage :=
  setItem store "tasks" (encodeTasks st.tasks)

/-- `loadTasks`: `const savedTasks = localStorage.getItem('tasks');
if (savedTasks) { setTasks(JSON.parse(savedTasks)); }`.
A stored value of a shape this program never writes is left as-is
(the source would install the untyped parse result, which has no
`Task` counterpart; no claim depends on that branch). -/
def loadTasks (store : Storage) (st : AppState) : AppState :=
  match getItem store "tasks" with
  | some j =>
      match decodeTasks j with
      | some l => { st with tasks := l }
      | none => st
  | none => st

/-! ### Helper lemmas -/

/-- `task.length > 0` is exactly the non-emptiness of the draft string:
the guard in `addTask` tests length, not trimmed content. -/
lemma string_length_pos_iff (s : String) : 0 < s.length ↔ s ≠ "" := by
  obtain ⟨data⟩ := s
  simp [String.length, List.length_pos, String.ext_iff]

lemma addCall_tasks_of_ne (st : AppState) (s : String) (now : Nat) (hs : s ≠ "") :
    (addCall st (s, now)).tasks = st.tasks ++ [⟨now, s⟩] := by
  simp only [addCall, addTask, setTask]
  rw [if_pos ((string_length_pos_iff s).mpr hs)]

lemma addCall_task_of_ne (st : AppState) (s : String) (now : Nat) (hs : s ≠ "") :
    (addCall st (s, now)).task = "" := by
  simp only [addCall, addTask, setTask]
  rw [if_pos ((string_length_pos_iff s).mpr hs)]

lemma addCall_of_empty (st : AppState) (now : Nat) :
    addCall st ("", now) = setTask "" st := by
  simp [addCall, addTask, setTask]

/-- Closed form of a whole sequence of add calls: the tasks appended are
exactly the non-empty texts, paired with their timestamps, in call order. -/
lemma runAdds_tasks (calls : List (String × Nat)) (st : AppState) :
    (runAdds st calls).tasks
      = st.tasks
        ++ (calls.filter (fun c => c.1 ≠ "")).map (fun c => Task.mk c.2 c.1) := by
  induction calls generalizing st with
  | nil => simp [runAdds]
  | cons c cs ih =>
      have hstep : runAdds st (c :: cs) = runAdds (addCall st c) cs := rfl
      by_cases hc : c.1 = ""
      · obtain ⟨s, now⟩ := c
        simp only at hc
        subst hc
        rw [hstep, ih, addCall_of_empty]
        simp [setTask]
      · obtain ⟨s, now⟩ := c
        simp only at hc
        rw [hstep, ih, addCall_tasks_of_ne st s now hc]
        simp [hc]

/-! ### Claims -/

/-- C1: each `addTask` call with a non-empty draft appends exactly one
task `{id: now, value: text}` at the end and clears the draft; a call
with the empty draft leaves the list length unchanged; and after any
sequence of calls the list holds the initial tasks followed by one task
per non-empty-text call, in call order (so the length grows by exactly
the number of non-empty-text calls). -/
theorem c1_addTask_appends_in_order (st : AppState) (s : String) (now : Nat)
    (calls : List (String × Nat)) (hs : s ≠ "") :
    ((addCall st (s, now)).tasks = st.tasks ++ [⟨now, s⟩]
        ∧ (addCall st (s, now)).task = "")
      ∧ (addCall st ("", now)).tasks.length = st.tasks.length
      ∧ (runAdds st calls).tasks
          = st.tasks
            ++ (calls.filter (fun c => c.1 ≠ "")).map (fun c => Task.mk c.2 c.1)
      ∧ (runAdds st calls).tasks.length
          = st.tasks.length + (calls.filter (fun c => c.1 ≠ "")).length := by
  refine ⟨⟨addCall_tasks_of_ne st s now hs, addCall_task_of_ne st s now hs⟩, ?_, ?_, ?_⟩
  · rw [addCall_of_empty]; rfl
  · exact runAdds_tasks calls st
  · rw [runAdds_tasks calls st]
    simp

/-- Witness for C1 at a concrete state and call sequence. -/
theorem c1_witness :
    (runAdds initialState [("buy milk", 3), ("", 4), ("walk dog", 5)]).tasks
      = [⟨3, "buy milk"⟩, ⟨5, "walk dog"⟩] := by
  have h := c1_addTask_appends_in_order initialState "x" 1
      [("buy milk", 3), ("", 4), ("walk dog", 5)] (by decide)
  rw [h.2.2.1]
  decide

/-- The task list after `startEdit(t)`, typing draft `s`, then
`updateTask()`: every task whose id equals `t.id` gets text `s`,
every other task is untouched. -/
lemma edit_update_tasks (st : AppState) (t : Task) (s : String) :
    (updateTask (setTask s (startEditTask t st))).tasks
      = st.tasks.map (fun u => if u.id = t.id then ⟨u.id, s⟩ else u) := by
  simp [updateTask, setTask, startEditTask]

/-- C2: after `startEdit(t)` followed by `updateTask()` with draft text
`s`, the list length is unchanged, a task `{id: t.id, value: s}` is in
the list, every position holding a task with a different id is exactly
as before, and every position holding a task with id `t.id` now holds
that task's id paired with text `s`. -/
theorem c2_edit_updates_only_target (st : AppState) (t : Task) (s : String)
    (hmem : t ∈ st.tasks) :
    (updateTask (setTask s (startEditTask t st))).tasks.length = st.tasks.length
      ∧ (Task.mk t.id s) ∈ (updateTask (setTask s (startEditTask t st))).tasks
      ∧ (∀ (i : Nat) (u : Task), st.tasks[i]? = some u → u.id ≠ t.id →
          (updateTask (setTask s (startEditTask t st))).tasks[i]? = some u)
      ∧ (∀ (i : Nat) (u : Task), st.tasks[i]? = some u → u.id = t.id →
          (updateTask (setTask s (startEditTask t st))).tasks[i]?
            = some (Task.mk u.id s)) := by
  rw [edit_update_tasks]
  refine ⟨by simp, ?_, ?_, ?_⟩
  · refine List.mem_map.mpr ⟨t, hmem, ?_⟩
    simp
  · intro i u hi hu
    simp [List.getElem?_map, hi, hu]
  · intro i u hi hu
    simp [List.getElem?_map, hi, hu]

/-- Witness for C2 on a concrete two-task list. -/
theorem c2_witness :
    (updateTask (setTask "new" (startEditTask ⟨1, "a"⟩
        (AppState.mk "" [⟨1, "a"⟩, ⟨2, "b"⟩] false none)))).tasks
      = [⟨1, "new"⟩, ⟨2, "b"⟩] := by
  have h := c2_edit_updates_only_target
      (AppState.mk "" [⟨1, "a"⟩, ⟨2, "b"⟩] false none) ⟨1, "a"⟩ "new"
      (by decide)
  rw [edit_update_tasks] at h ⊢
  decide

/-- C3: after `removeTask(i)` no task with id `i` remains, the surviving
tasks form a sublist of the original list (same relative order, same id
and text), and every original task with a different id survives. -/
theorem c3_remove_filters_by_id (st : AppState) (i : Nat) :
    (∀ u ∈ (removeTask i st).tasks, u.id ≠ i)
      ∧ (removeTask i st).tasks.Sublist st.tasks
      ∧ ∀ u ∈ st.tasks, u.id ≠ i → u ∈ (removeTask i st).tasks := by
  refine ⟨?_, List.filter_sublist _, ?_⟩
  · intro u hu
    have := List.of_mem_filter hu
    simpa using this
  · intro u hu hne
    exact List.mem_filter.mpr ⟨hu, by simpa using hne⟩

/-- Witness for C3 on a concrete list with a duplicate id. -/
theorem c3_witness :
    (∀ u ∈ (removeTask 2 (AppState.mk "" [⟨1, "a"⟩, ⟨2, "b"⟩, ⟨3, "c"⟩] false none)).tasks,
        u.id ≠ 2)
      ∧ (removeTask 2 (AppState.mk "" [⟨1, "a"⟩, ⟨2, "b"⟩, ⟨3, "c"⟩] false none)).tasks.Sublist
          [⟨1, "a"⟩, ⟨2, "b"⟩, ⟨3, "c"⟩]
      ∧ ∀ u ∈ [(⟨1, "a"⟩ : Task), ⟨2, "b"⟩, ⟨3, "c"⟩], u.id ≠ 2 →
          u ∈ (removeTask 2 (AppState.mk "" [⟨1, "a"⟩, ⟨2, "b"⟩, ⟨3, "c"⟩] false none)).tasks :=
  c3_remove_filters_by_id (AppState.mk "" [⟨1, "a"⟩, ⟨2, "b"⟩, ⟨3, "c"⟩] false none) 2

/-- C10: the guard in `addTask` is `task.length > 0` — no trimming, no
other validation.  Any non-empty draft, including whitespace-only text,
is appended verbatim; the exact empty string leaves the whole state as
it was. -/
theorem c10_length_guard_only (st : AppState) (s : String) (now : Nat)
    (hs : s ≠ "") :
    (addTask now (setTask s st)).tasks = st.tasks ++ [⟨now, s⟩]
      ∧ addTask now (setTask "" st) = setTask "" st := by
  refine ⟨addCall_tasks_of_ne st s now hs, ?_⟩
  simp [addTask, setTask]

/-- Witness for C10 with a whitespace-only draft string. -/
theorem c10_witness :
    (addTask 7 (setTask "  " initialState)).tasks = [⟨7, "  "⟩]
      ∧ addTask 7 (setTask "" initialState) = setTask "" initialState :=
  c10_length_guard_only initialState "  " 7 (by decide)

/-- C5 counterexample: in a state whose `currentTaskId` matches no task,
`updateTask` is NOT a no-op on the whole state — it still clears the
draft, resets the mode flag and nulls `currentTaskId`. -/
theorem c5_counterexample_update_resets :
    (∀ u ∈ (AppState.mk "draft" [] true (some 5)).tasks,
        some u.id ≠ (AppState.mk "draft" [] true (some 5)).currentTaskId)
      ∧ updateTask (AppState.mk "draft" [] true (some 5))
          ≠ AppState.mk "draft" [] true (some 5) := by
  decide

/-- C5 amended: when `currentTaskId` matches no task in the list,
`updateTask` leaves the task list unchanged, but it still clears the
draft, switches the mode flag back to `false` (ADD) and clears the
edit session's target id — exactly as on a successful update. -/
theorem c5_update_without_target (st : AppState)
    (h : ∀ u ∈ st.tasks, some u.id ≠ st.currentTaskId) :
    (updateTask st).tasks = st.tasks
      ∧ (updateTask st).task = ""
      ∧ (updateTask st).isEditing = false
      ∧ (updateTask st).currentTaskId = none := by
  refine ⟨?_, rfl, rfl, rfl⟩
  simp only [updateTask]
  calc st.tasks.map (fun u => if some u.id = st.currentTaskId then ⟨u.id, st.task⟩ else u)
      = st.tasks.map id := List.map_congr_left (fun u hu => if_neg (h u hu))
    _ = st.tasks := List.map_id st.tasks

/-- Witness for the amended C5 at a concrete state. -/
theorem c5_witness :
    (updateTask (AppState.mk "d" [⟨1, "a"⟩] true (some 5))).tasks = [⟨1, "a"⟩]
      ∧ (updateTask (AppState.mk "d" [⟨1, "a"⟩] true (some 5))).task = ""
      ∧ (updateTask (AppState.mk "d" [⟨1, "a"⟩] true (some 5))).isEditing = false
      ∧ (updateTask (AppState.mk "d" [⟨1, "a"⟩] true (some 5))).currentTaskId = none :=
  c5_update_without_target (AppState.mk "d" [⟨1, "a"⟩] true (some 5)) (by decide)

/-- C6: deleting the task an edit session targets removes it from the
list but leaves the session fields untouched: `isEditing` stays `true`
(update mode), `currentTaskId` still holds the now-dangling id, and the
draft text is exactly as before. -/
theorem c6_remove_leaves_stale_session (st : AppState) (x : Nat)
    (h1 : st.isEditing = true) (h2 : st.currentTaskId = some x) :
    (removeTask x st).isEditing = true
      ∧ (removeTask x st).currentTaskId = some x
      ∧ (removeTask x st).task = st.task
      ∧ ∀ u ∈ (removeTask x st).tasks, u.id ≠ x := by
  refine ⟨h1, h2, rfl, ?_⟩
  intro u hu
  simpa using List.of_mem_filter hu

/-- Witness for C6: edit session on id 1, then `removeTask 1`. -/
theorem c6_witness :
    (removeTask 1 (AppState.mk "a" [⟨1, "a"⟩] true (some 1))).isEditing = true
      ∧ (removeTask 1 (AppState.mk "a" [⟨1, "a"⟩] true (some 1))).currentTaskId = some 1
      ∧ (removeTask 1 (AppState.mk "a" [⟨1, "a"⟩] true (some 1))).task
          = (AppState.mk "a" [⟨1, "a"⟩] true (some 1)).task
      ∧ ∀ u ∈ (removeTask 1 (AppState.mk "a" [⟨1, "a"⟩] true (some 1))).tasks, u.id ≠ 1 :=
  c6_remove_leaves_stale_session (AppState.mk "a" [⟨1, "a"⟩] true (some 1)) 1 rfl rfl

/-- C9: the mode is the two-valued flag `isEditing`; `startEditTask`
switches it to EDIT (`true`) and installs the session target,
`updateTask` switches it back to ADD (`false`) and destroys the session;
`addTask`, `removeTask` and typing (`setTask`) never change the mode or
the session target, so no other transition — in particular no
cancel-edit — exists among the component's operations. -/
theorem c9_mode_state_machine (st : AppState) (t : Task) (s : String)
    (now i : Nat) :
    (st.isEditing = true ∨ st.isEditing = false)
      ∧ (startEditTask t st).isEditing = true
      ∧ (startEditTask t st).currentTaskId = some t.id
      ∧ (updateTask st).isEditing = false
      ∧ (updateTask st).currentTaskId = none
      ∧ (addTask now st).isEditing = st.isEditing
      ∧ (addTask now st).currentTaskId = st.currentTaskId
      ∧ (removeTask i st).isEditing = st.isEditing
      ∧ (removeTask i st).currentTaskId = st.currentTaskId
      ∧ (setTask s st).isEditing = st.isEditing
      ∧ (setTask s st).currentTaskId = st.currentTaskId := by
  refine ⟨?_, rfl, rfl, rfl, rfl, ?_, ?_, rfl, rfl, rfl, rfl⟩
  · cases st.isEditing
    · exact Or.inr rfl
    · exact Or.inl rfl
  · by_cases h : 0 < st.task.length <;> simp [addTask, h]
  · by_cases h : 0 < st.task.length <;> simp [addTask, h]

/-! ### Reachable states (C4) -/

/-- A user-level operation on the component: typing a draft and pressing
Add (with the `Date.now()` value observed at that press), pressing Edit
on a task, pressing Update, or pressing Delete on an id. -/
inductive Op where
  | add (s : String) (now : Nat)
  | startEdit (t : Task)
  | update
  | remove (i : Nat)

/-- Applying one operation to the component state. -/
def applyOp (st : AppState) : Op → AppState
  | .add s now => addCall st (s, now)
  | .startEdit t => startEditTask t st
  | .update => updateTask st
  | .remove i => removeTask i st

/-- Running a sequence of operations. -/
def run (st : AppState) (ops : List Op) : AppState :=
  ops.foldl applyOp st

/-- The clock assumption under which `Date.now()` yields unique ids:
every Add is stamped strictly later than every id already in the list
(real time advanced by at least a millisecond since the last Add). -/
def clockValid (st : AppState) : List Op → Bool
  | [] => true
  | op :: rest =>
      (match op with
       | .add _ now => st.tasks.all (fun u => u.id < now)
       | _ => true)
      && clockValid (applyOp st op) rest

lemma updateTask_map_id (st : AppState) :
    (updateTask st).tasks.map Task.id = st.tasks.map Task.id := by
  simp only [updateTask, List.map_map]
  refine List.map_congr_left (fun u _ => ?_)
  by_cases h : some u.id = st.currentTaskId <;> simp [h]

lemma run_pairwise_lt (ops : List Op) (st : AppState)
    (hst : (st.tasks.map Task.id).Pairwise (· < ·))
    (h : clockValid st ops = true) :
    ((run st ops).tasks.map Task.id).Pairwise (· < ·) := by
  induction ops generalizing st with
  | nil => exact hst
  | cons op rest ih =>
      have hstep : run st (op :: rest) = run (applyOp st op) rest := rfl
      rw [hstep]
      cases op with
      | add s now =>
          simp only [clockValid, Bool.and_eq_true] at h
          refine ih (applyOp st (.add s now)) ?_ h.2
          have hall : ∀ u ∈ st.tasks, u.id < now := by
            intro u hu
            have h1 := h.1
            simp only [List.all_eq_true, decide_eq_true_eq] at h1
            exact h1 u hu
          show ((addCall st (s, now)).tasks.map Task.id).Pairwise (· < ·)
          by_cases hs : s = ""
          · subst hs
            rw [addCall_of_empty]
            exact hst
          · rw [addCall_tasks_of_ne st s now hs]
            rw [List.map_append, List.pairwise_append]
            refine ⟨hst, List.pairwise_singleton _ _, ?_⟩
            intro a ha b hb
            simp only [List.map_cons, List.map_nil, List.mem_singleton] at hb
            subst hb
            obtain ⟨u, hu, rfl⟩ := List.mem_map.mp ha
            exact hall u hu
      | startEdit t =>
          simp only [clockValid, Bool.and_eq_true, true_and] at h
          exact ih _ hst h
      | update =>
          simp only [clockValid, Bool.and_eq_true, true_and] at h
          refine ih _ ?_ h
          show ((updateTask st).tasks.map Task.id).Pairwise (· < ·)
          rw [updateTask_map_id]
          exact hst
      | remove i =>
          simp only [clockValid, Bool.and_eq_true, true_and] at h
          refine ih _ ?_ h
          show ((removeTask i st).tasks.map Task.id).Pairwise (· < ·)
          exact hst.sublist (List.Sublist.map Task.id (List.filter_sublist _))

/-- C4 counterexample: `Date.now()` is only non-decreasing — two Adds
within the same millisecond receive the same timestamp, and then the
reachable list carries duplicate ids. -/
theorem c4_counterexample_same_millisecond :
    (run initialState [.add "a" 5, .add "b" 5]).tasks.map Task.id = [5, 5]
      ∧ ¬ ((run initialState [.add "a" 5, .add "b" 5]).tasks.map Task.id).Nodup := by
  decide

/-- C4: in every state reachable from the initial (empty-list) state by
a sequence of operations under the strictly-advancing-clock assumption,
the task ids are pairwise distinct and listed in non-decreasing
(in fact strictly increasing, i.e. insertion) order. -/
theorem c4_ids_unique_and_sorted (ops : List Op)
    (h : clockValid initialState ops = true) :
    ((run initialState ops).tasks.map Task.id).Nodup
      ∧ ((run initialState ops).tasks.map Task.id).Sorted (· ≤ ·) := by
  have hp := run_pairwise_lt ops initialState (by simp [initialState]) h
  exact ⟨hp.imp Nat.ne_of_lt, hp.imp Nat.le_of_lt⟩

/-- Witness for C4: a concrete add/edit/update/add/remove run. -/
theorem c4_witness :
    ((run initialState
        [.add "a" 1, .startEdit ⟨1, "a"⟩, .update, .add "b" 3, .remove 1]).tasks.map
          Task.id).Nodup
      ∧ ((run initialState
          [.add "a" 1, .startEdit ⟨1, "a"⟩, .update, .add "b" 3, .remove 1]).tasks.map
            Task.id).Sorted (· ≤ ·) :=
  c4_ids_unique_and_sorted
    [.add "a" 1, .startEdit ⟨1, "a"⟩, .update, .add "b" 3, .remove 1] (by decide)

/-! ### Persistence (C7, C8) -/

lemma decodeTask_encodeTask (t : Task) : decodeTask (encodeTask t) = some t := by
  simp [encodeTask, decodeTask]

lemma decodeTasks_encodeTasks (l : List Task) :
    decodeTasks (encodeTasks l) = some l := by
  simp only [encodeTasks, decodeTasks]
  induction l with
  | nil => rfl
  | cons t ts ih =>
      rw [List.map_cons, List.mapM_cons, decodeTask_encodeTask, ih]
      rfl

/-- C7: writing the current task list with `saveTasks` and reading it
back with `loadTasks` reproduces the same ordered sequence of tasks
(equal id and text pairwise), whatever state the reader starts from and
whatever else the storage held. -/
theorem c7_save_load_round_trip (st st2 : AppState) (store : Storage) :
    (loadTasks (saveTasks st store) st2).tasks = st.tasks := by
  simp [loadTasks, saveTasks, getItem, setItem, decodeTasks_encodeTasks]

/-- C8 counterexample: the persisted element for task `{id 1, value "a"}`
is the object `{"id": 1, "value": "a"}` — its text field is named
`value`, so it is not of the literal shape `{id: number, text: string}`
the claim states. -/
theorem c8_counterexample_field_is_value :
    saveTasks (AppState.mk "" [⟨1, "a"⟩] false none) (fun _ => none) "tasks"
        = some (Json.arr [Json.obj [("id", Json.num 1), ("value", Json.str "a")]])
      ∧ ¬ ∃ n s, Json.obj [("id", Json.num 1), ("value", Json.str "a")]
          = Json.obj [("id", Json.num n), ("text", Json.str s)] := by
  refine ⟨rfl, ?_⟩
  rintro ⟨n, s, h⟩
  simp at h

/-- C8 amended: every persistence write stores, under the single string
key `"tasks"`, a JSON array whose elements are objects of exactly the
shape `{id: number, value: string}` (the task-text field is called
`value` in the persisted JSON), with no versioning field, and writes to
no other key. -/
theorem c8_persisted_layout (st : AppState) (store : Storage) :
    (∃ js, saveTasks st store "tasks" = some (Json.arr js)
        ∧ ∀ j ∈ js, ∃ n s, j = Json.obj [("id", Json.num n), ("value", Json.str s)])
      ∧ ∀ k, k ≠ "tasks" → saveTasks st store k = store k := by
  constructor
  · refine ⟨st.tasks.map encodeTask, ?_, ?_⟩
    · simp [saveTasks, setItem, encodeTasks]
    · intro j hj
      obtain ⟨t, _, rfl⟩ := List.mem_map.mp hj
      exact ⟨t.id, t.value, rfl⟩
  · intro k hk
    simp [saveTasks, setItem, hk]

/-- Witness for the amended C8 on a concrete one-task state. -/
theorem c8_witness :
    (∃ js, saveTasks (AppState.mk "" [⟨1, "a"⟩] false none) (fun _ => none) "tasks"
          = some (Json.arr js)
        ∧ ∀ j ∈ js, ∃ n s, j = Json.obj [("id", Json.num n), ("value", Json.str s)])
      ∧ ∀ k, k ≠ "tasks" →
          saveTasks (AppState.mk "" [⟨1, "a"⟩] false none) (fun _ => none) k
            = (fun _ => none : Storage) k :=
  c8_persisted_layout (AppState.mk "" [⟨1, "a"⟩] false none) (fun _ => none)

end TaskManager
